import Mathlib

/-!
Shallow embedding of the yellicode/templating core: the `StreamWriter` text
writer (src/unnamed/part_004, the variant with loc/sloc counters, which is a
superset of src/src/stream-writer.ts) and the `InternalGenerator` session
controller (src/src/internal-generator.ts).

Strings are modelled as `List Char`.  The Node.js stream is modelled as the
accumulated `output` field; the file system as an association list from paths
to contents.  External platform facilities (os.EOL, path.join, JSON.parse,
the @yellicode/elements ModelReader) are parameters of the embedding.
-/

/-- JS `String.prototype.indexOf(pat)` on char lists: the smallest index at
which `pat` occurs as a contiguous sublist, or `none`. -/
def findAux (pat : List Char) : List Char → Option Nat
  | [] => if pat = [] then some 0 else none
  | c :: tail =>
    if ((c :: tail).take pat.length) = pat then some 0
    else (findAux pat tail).map (· + 1)

/-- JS `String.prototype.indexOf(pat, start)`: first occurrence at index ≥ start. -/
def findFrom (pat s : List Char) (start : Nat) : Option Nat :=
  (findAux pat (s.drop start)).map (· + start)

/-- Occurrence predicate: `pat` occurs in `s` at index `i`. -/
def occursAt (pat s : List Char) (i : Nat) : Prop :=
  (s.drop i).take pat.length = pat

instance occursAt.instDecidable (pat s : List Char) (i : Nat) :
    Decidable (occursAt pat s i) := by
  unfold occursAt; infer_instance

/-- JS `String.prototype.substring(a, b)` (swaps its arguments when a > b). -/
def jsSubstring (s : List Char) (a b : Nat) : List Char :=
  if a ≤ b then (s.take b).drop a else (s.take a).drop b

/-- Node `path.join` modelled as separator concatenation (char lists). -/
def pathJoinL (a b : List Char) : List Char := a ++ '/' :: b

/-- Plain association-list lookup (JS object property access on string keys). -/
def assocFind {α β : Type} [DecidableEq α] : List (α × β) → α → Option β
  | [], _ => none
  | (k, v) :: rest, key => if k = key then some v else assocFind rest key

theorem occursAt_cons (pat : List Char) (c : Char) (t : List Char) (j : Nat) :
    occursAt pat (c :: t) (j + 1) ↔ occursAt pat t j := by
  simp [occursAt]

theorem findAux_sound (pat : List Char) :
    ∀ (s : List Char) (i : Nat), findAux pat s = some i → occursAt pat s i := by
  intro s
  induction s with
  | nil =>
    intro i h
    unfold findAux at h
    by_cases hp : pat = []
    · simp [hp] at h
      subst h
      simp [occursAt, hp]
    · simp [hp] at h
  | cons c t ih =>
    intro i h
    unfold findAux at h
    by_cases hc : ((c :: t).take pat.length) = pat
    · simp [hc] at h
      subst h
      simpa [occursAt] using hc
    · simp [hc] at h
      obtain ⟨i0, hi0, hplus⟩ := h
      subst hplus
      exact (occursAt_cons pat c t i0).mpr (ih i0 hi0)

theorem findAux_complete (pat : List Char) :
    ∀ (s : List Char) (j : Nat), occursAt pat s j →
      ∃ i, findAux pat s = some i ∧ i ≤ j := by
  intro s
  induction s with
  | nil =>
    intro j h
    unfold occursAt at h
    simp at h
    refine ⟨0, ?_, Nat.zero_le j⟩
    unfold findAux
    simp [h.symm]
  | cons c t ih =>
    intro j h
    match j with
    | 0 =>
      refine ⟨0, ?_, le_refl 0⟩
      unfold occursAt at h
      simp at h
      unfold findAux
      simp [h]
    | Nat.succ j0 =>
      have ht : occursAt pat t j0 := (occursAt_cons pat c t j0).mp h
      obtain ⟨i0, hfind, hle⟩ := ih j0 ht
      by_cases hc : ((c :: t).take pat.length) = pat
      · exact ⟨0, by unfold findAux; simp [hc], Nat.zero_le _⟩
      · refine ⟨i0 + 1, ?_, Nat.succ_le_succ hle⟩
        unfold findAux
        simp [hc, hfind]

theorem findAux_none (pat s : List Char) (h : findAux pat s = none) :
    ∀ j, ¬ occursAt pat s j := by
  intro j hocc
  obtain ⟨i, hi, _⟩ := findAux_complete pat s j hocc
  rw [h] at hi
  exact Option.noConfusion hi

theorem occursAt_drop (pat s : List Char) (start i : Nat) :
    occursAt pat (s.drop start) i ↔ occursAt pat s (i + start) := by
  unfold occursAt
  rw [List.drop_drop, Nat.add_comm start i]

theorem findFrom_sound (pat s : List Char) (start i : Nat)
    (h : findFrom pat s start = some i) :
    occursAt pat s i ∧ start ≤ i := by
  unfold findFrom at h
  simp at h
  obtain ⟨i0, hi0, hplus⟩ := h
  have := findAux_sound pat (s.drop start) i0 hi0
  subst hplus
  exact ⟨(occursAt_drop pat s start i0).mp this, Nat.le_add_left start i0⟩

theorem findFrom_complete (pat s : List Char) (start j : Nat)
    (hj : occursAt pat s j) (hstart : start ≤ j) :
    ∃ i, findFrom pat s start = some i ∧ i ≤ j := by
  have hdrop : occursAt pat (s.drop start) (j - start) := by
    rw [occursAt_drop, Nat.sub_add_cancel hstart]
    exact hj
  obtain ⟨i0, hfind, hle⟩ := findAux_complete pat (s.drop start) (j - start) hdrop
  refine ⟨i0 + start, ?_, ?_⟩
  · unfold findFrom
    simp [hfind]
  · omega

theorem findFrom_none (pat s : List Char) (start : Nat)
    (h : ∀ j, ¬ occursAt pat s j) : findFrom pat s start = none := by
  unfold findFrom
  cases hfa : findAux pat (s.drop start) with
  | none => rfl
  | some i0 =>
    exact absurd ((occursAt_drop pat s start i0).mp (findAux_sound _ _ _ hfa))
      (h (i0 + start))

/-! ## StreamWriter (src/unnamed/part_004) -/

/-- Embedding of `DefaultRegionMarkerFormatter.getRegionStartMarker` (src/src/region-marker-formatter.ts). -/
def defaultRegionStartMarker (regionName : List Char) : List Char :=
  "/// <".toList ++ regionName ++ ">".toList

/-- Embedding of `DefaultRegionMarkerFormatter.getRegionEndMarker` (src/src/region-marker-formatter.ts). -/
def defaultRegionEndMarker (regionName : List Char) : List Char :=
  "/// </".toList ++ regionName ++ ">".toList

/-- State of a `StreamWriter` (src/unnamed/part_004).  The Node.js writable
stream is modelled by the accumulated `output`; `regionStartMarkerOf` and
`regionEndMarkerOf` together model the `fileRegionMapper` field, which the
constructor always sets (to the provided formatter or the default one), so the
`fileRegionMapper == null` guard of `writeFileRegion` can never fire. -/
structure StreamWriter where
  indent : Int
  templateDirName : List Char
  textFileCache : List (List Char × Option (List Char))
  regionStartMarkerOf : List Char → List Char
  regionEndMarkerOf : List Char → List Char
  endOfLineString : List Char
  indentString : List Char
  loc : Nat
  sloc : Nat
  countSloc : Bool
  noIndent : Bool
  noEndOfLine : Bool
  output : List Char

/-- The `StreamWriter` constructor with the default region marker formatter.
`dirName` models `path.resolve('.')` and `eol` models `os.EOL`, both of which
are environment-dependent. -/
def mkStreamWriter (dirName eol : List Char) : StreamWriter :=
  { indent := 0
    templateDirName := dirName
    textFileCache := []
    regionStartMarkerOf := defaultRegionStartMarker
    regionEndMarkerOf := defaultRegionEndMarker
    endOfLineString := eol
    indentString := "\t".toList
    loc := 0
    sloc := 0
    countSloc := true
    noIndent := false
    noEndOfLine := false
    output := [] }

namespace StreamWriter

/-- Embedding of `stream.write(v)` on the modelled stream. -/
def cWrite (w : StreamWriter) (v : List Char) : StreamWriter :=
  { w with output := w.output ++ v }

/-- Embedding of `StreamWriter.incrementLoc`. -/
def incrementLoc (w : StreamWriter) (hasContents : Bool) : StreamWriter :=
  let w1 := { w with loc := w.loc + 1 }
  if hasContents && w1.countSloc then { w1 with sloc := w1.sloc + 1 } else w1

/-- The for-loop of `createIndentString`: `n` concatenated copies of `u`. -/
def repCat (u : List Char) : Nat → List Char
  | 0 => []
  | n + 1 => repCat u n ++ u

/-- Embedding of `StreamWriter.createIndentString` — concatenates `indentString` `indent`
times (empty when indentation is suppressed). -/
def createIndentString (w : StreamWriter) : List Char :=
  if w.noIndent then [] else repCat w.indentString w.indent.toNat

/-- Embedding of `StreamWriter.writeLine` — `value != null` distinguishes a provided
(possibly empty) string from an omitted argument. -/
def writeLine (w : StreamWriter) (value : Option (List Char)) : StreamWriter :=
  match value with
  | some v =>
    let w1 :=
      if w.noEndOfLine then w.cWrite (w.createIndentString ++ v)
      else w.cWrite (w.createIndentString ++ v ++ w.endOfLineString)
    w1.incrementLoc true
  | none =>
    let w1 := if w.noEndOfLine then w else w.cWrite w.endOfLineString
    w1.incrementLoc false

/-- Embedding of `StreamWriter.writeLines`.  The elements of a TypeScript `string[]` are
non-null, so the per-element `incrementLoc(value != null)` receives `true`. -/
def writeLines (w : StreamWriter) (values : List (List Char))
    (delimiter : Option (List Char)) : StreamWriter :=
  let len := values.length
  (values.enum).foldl
    (fun acc vi =>
      let acc1 := acc.cWrite (acc.createIndentString ++ vi.2)
      let acc2 :=
        match delimiter with
        | some d => if d ≠ [] && vi.1 < len - 1 then acc1.cWrite d else acc1
        | none => acc1
      let acc3 := if acc2.noEndOfLine then acc2 else acc2.cWrite acc2.endOfLineString
      acc3.incrementLoc true)
    w

/-- Embedding of `StreamWriter.writeLineIndented`. -/
def writeLineIndented (w : StreamWriter) (value : List Char) : StreamWriter :=
  let ind := if w.noIndent then [] else w.indentString ++ w.createIndentString
  let w1 :=
    if w.noEndOfLine then w.cWrite (ind ++ value)
    else w.cWrite (ind ++ value ++ w.endOfLineString)
  w1.incrementLoc true

/-- Embedding of `StreamWriter.writeEndOfLine` — `if (value)` is JS truthiness, so an empty
string argument is not written; `incrementLoc(true)` runs unconditionally. -/
def writeEndOfLine (w : StreamWriter) (value : Option (List Char)) : StreamWriter :=
  let w1 :=
    match value with
    | some v => if v = [] then w else w.cWrite v
    | none => w
  let w2 := if w1.noEndOfLine then w1 else w1.cWrite w1.endOfLineString
  w2.incrementLoc true

/-- Embedding of `StreamWriter.writeIndent`. -/
def writeIndent (w : StreamWriter) : StreamWriter :=
  if w.noIndent then w else w.cWrite w.createIndentString

/-- Embedding of `StreamWriter.write` — a null value is a no-op. -/
def write (w : StreamWriter) (value : Option (List Char)) : StreamWriter :=
  match value with
  | none => w
  | some v => w.cWrite v

/-- Embedding of `StreamWriter.increaseIndent`. -/
def increaseIndent (w : StreamWriter) : StreamWriter :=
  { w with indent := w.indent + 1 }

/-- Embedding of `StreamWriter.decreaseIndent` — decrements only when the level is positive. -/
def decreaseIndent (w : StreamWriter) : StreamWriter :=
  if w.indent > 0 then { w with indent := w.indent - 1 } else w

/-- Embedding of `StreamWriter.clearIndent`. -/
def clearIndent (w : StreamWriter) : StreamWriter :=
  { w with indent := 0 }

/-- Embedding of `StreamWriter.suppressIndent`. -/
def suppressIndent (w : StreamWriter) : StreamWriter :=
  { w with noIndent := true }

/-- Embedding of `StreamWriter.resumeIndent`. -/
def resumeIndent (w : StreamWriter) : StreamWriter :=
  { w with noIndent := false }

/-- Embedding of `StreamWriter.suppressEndOfLine`. -/
def suppressEndOfLine (w : StreamWriter) : StreamWriter :=
  { w with noEndOfLine := true }

/-- Embedding of `StreamWriter.resumeEndOfLine`. -/
def resumeEndOfLine (w : StreamWriter) : StreamWriter :=
  { w with noEndOfLine := false }

/-- Embedding of `StreamWriter.freezeSloc`. -/
def freezeSloc (w : StreamWriter) : StreamWriter :=
  { w with countSloc := false }

/-- Embedding of `StreamWriter.unfreezeSloc`. -/
def unfreezeSloc (w : StreamWriter) : StreamWriter :=
  { w with countSloc := true }

/-- Embedding of `StreamWriter.withFrozenSloc` — disables counting, runs the (possibly
null) block on the same writer, then re-enables counting unconditionally. -/
def withFrozenSloc (w : StreamWriter)
    (contents : Option (StreamWriter → StreamWriter)) : StreamWriter :=
  let w1 := { w with countSloc := false }
  let w2 :=
    match contents with
    | some f => f w1
    | none => w1
  { w2 with countSloc := true }

end StreamWriter

/-! ## StreamWriter file reading and region extraction -/

/-- File system model: association list from full paths to file contents.
A present key models an existing file (`fs.existsSync`); its value is what
`fs.readFileSync` returns. -/
def FsMap : Type := List (List Char × List Char)

/-- Removal of a leading U+FEFF byte-order mark, applied by `readTextFile`
under utf-8 (`contents.charCodeAt(0) === 0xFEFF`). -/
def stripBom (contents : List Char) : List Char :=
  match contents with
  | c :: rest => if c.toNat = 0xFEFF then rest else contents
  | [] => []

namespace StreamWriter

/-- Embedding of `StreamWriter.readTextFile` (src/unnamed/part_004 lines 290-320): returns
the contents (or `none` for a missing/empty file) together with the writer
whose `textFileCache` reflects the call.  An existing empty file is returned
as `none` before the cache write, so it is never cached. -/
def readTextFile (w : StreamWriter) (fs : FsMap) (p : List Char)
    (useCache : Bool) (encoding : Option (List Char)) :
    Option (List Char) × StreamWriter :=
  match useCache, assocFind w.textFileCache p with
  | true, some cached => (cached, w)
  | _, _ =>
    match assocFind fs p with
    | none =>
      if useCache then (none, { w with textFileCache := (p, none) :: w.textFileCache })
      else (none, w)
    | some raw =>
      let enc : List Char :=
        match encoding with
        | some e => e.map Char.toLower
        | none => "utf-8".toList
      if raw = [] then (none, w)
      else
        let contents := if enc = "utf-8".toList then stripBom raw else raw
        if useCache then
          (some contents, { w with textFileCache := (p, some contents) :: w.textFileCache })
        else (some contents, w)

/-- Embedding of `StreamWriter.resolveFileName`. -/
def resolveFileName (w : StreamWriter) (fileName : List Char) : List Char :=
  pathJoinL w.templateDirName fileName

/-- Embedding of `StreamWriter.writeFile` — uncached read, appends the contents verbatim. -/
def writeFile (w : StreamWriter) (fs : FsMap) (p : List Char)
    (encoding : Option (List Char)) : StreamWriter :=
  let (contents, w1) := w.readTextFile fs (w.resolveFileName p) false encoding
  match contents with
  | none => w1
  | some c => if c = [] then w1 else w1.cWrite c

/-- Embedding of `StreamWriter.writeFileRegion` (src/unnamed/part_004 lines 213-240).
Returns the success boolean together with the updated writer (cache fill and
stream output included). -/
def writeFileRegion (w : StreamWriter) (fs : FsMap) (regionName p : List Char)
    (encoding : Option (List Char)) : Bool × StreamWriter :=
  if regionName = [] ∨ p = [] then (false, w)
  else
    let fullPath := w.resolveFileName p
    let res := w.readTextFile fs fullPath true encoding
    let w1 := res.2
    match res.1 with
    | none => (false, w1)
    | some contents =>
      if contents = [] then (false, w1)
      else
        let regionStartMarker := w.regionStartMarkerOf regionName
        match findAux regionStartMarker contents with
        | none => (false, w1)
        | some regionStartIndex =>
          let regionEndMarker := w.regionEndMarkerOf regionName
          match findFrom regionEndMarker contents regionStartIndex with
          | none => (false, w1)
          | some regionEndIndex =>
            let region := jsSubstring contents
              (regionStartIndex + regionStartMarker.length) regionEndIndex
            (true, (w1.cWrite region).writeEndOfLine none)

end StreamWriter

/-! ## Session controller (src/src/internal-generator.ts) -/

/-- Embedding of `OutputMode` (src/src/options / generator.ts).  `Overwrite` has numeric
value 0 and is therefore JS-falsy, which matters in `parseProcessArgs`. -/
inductive OutputMode
  | Overwrite
  | Once
  | Append
deriving DecidableEq

/-- JS truthiness of an `OutputMode` enum value (`Overwrite = 0` is falsy). -/
def OutputMode.jsTruthy : OutputMode → Bool
  | .Overwrite => false
  | _ => true

/-- An abstract JSON value, as far as the generator inspects one: enough
structure to decide JS truthiness. -/
inductive JsonVal
  | null
  | bool (b : Bool)
  | num (n : Int)
  | str (s : String)
  | arr (tag : Nat)
  | obj (tag : Nat)
deriving DecidableEq

/-- JS truthiness of a JSON value. -/
def JsonVal.jsTruthy : JsonVal → Bool
  | .null => false
  | .bool b => b
  | .num n => n != 0
  | .str s => s ≠ ""
  | .arr _ => true
  | .obj _ => true

/-- Embedding of `CodeGenerationOptions` as consumed by `generateInternal`. -/
structure CodeGenerationOptions where
  outputFile : String
  outputMode : Option OutputMode

/-- Observable effects of a `generateInternal` call, in order of occurrence. -/
inductive GenEvent
  | ensureDirectory (dir : String)
  | sendMessage (cmd : String)
  | createWriteStream (p : String) (flags : String)
  | callbackInvoked
  | streamEnd
  | consoleLog (message : String)
deriving DecidableEq

/-- Node `path.join` on `String` (separator concatenation, as in `pathJoinL`). -/
def pathJoinS (a b : String) : String := a ++ "/" ++ b

/-- Node `path.dirname`: everything before the final separator. -/
def pathDirname (p : String) : String :=
  ⟨(p.toList.reverse.drop ((p.toList.reverse.takeWhile (· ≠ '/')).length + 1)).reverse⟩

/-- The generation-call file system: full path → contents. -/
def GenFs : Type := List (String × String)

/-- Replace-or-insert on the generation file system (stream creation plus the
bytes the template callback wrote through its StreamWriter). -/
def genFsSet (fs : GenFs) (p contents : String) : GenFs :=
  (p, contents) :: (fs.filter (fun kv => kv.1 ≠ p))

/-- Embedding of `fs.existsSync` on the modelled file system. -/
def genFsExists (fs : GenFs) (p : String) : Bool :=
  (assocFind fs p).isSome

/-- Embedding of `InternalGenerator.generateInternal` (src/src/internal-generator.ts lines
123-156).  `cwd` models `path.resolve('./')`; `openOk` tells whether the
write stream's `open` event ever fires (it does not on an open failure, in
which case neither the callback nor `generateFinished` happens); `cbOutput`
is the text the template callback writes through its StreamWriter before its
returned promise resolves.  Returns the emitted events in order, together
with the resulting file system. -/
def generateInternal (cwd : String) (defaultOutputMode : OutputMode)
    (options : CodeGenerationOptions) (openOk : Bool) (cbOutput : String)
    (fs : GenFs) : List GenEvent × GenFs :=
  let fullOutputFileName := pathJoinS cwd options.outputFile
  let pre := [GenEvent.ensureDirectory (pathDirname fullOutputFileName),
              GenEvent.sendMessage "generateStarted"]
  let mode := match options.outputMode with
    | none => defaultOutputMode
    | some m => m
  if mode = OutputMode.Once ∧ genFsExists fs fullOutputFileName then
    (pre ++ [GenEvent.sendMessage "generateFinished"], fs)
  else
    let flags := if mode = OutputMode.Append then "a" else "w"
    if openOk then
      let base := if flags = "a" then
          (match assocFind fs fullOutputFileName with | some c => c | none => "")
        else ""
      (pre ++ [GenEvent.createWriteStream fullOutputFileName flags,
               GenEvent.callbackInvoked, GenEvent.streamEnd,
               GenEvent.sendMessage "generateFinished"],
       genFsSet fs fullOutputFileName (base ++ cbOutput))
    else
      (pre ++ [GenEvent.createWriteStream fullOutputFileName flags], fs)

/-! ## Model acquisition (getModel / buildModel) -/

/-- An `ISetModelMessage` as delivered to the `process.on('message')` handler. -/
structure SetModelMsg where
  cmd : String
  modelData : Option JsonVal
deriving DecidableEq

/-- The pieces of `@yellicode/elements` the handler calls: `ModelReader.canRead`
and `ModelReader.readDocument`; `readDocument` returning `some m` models a
truthy document whose `model` property is `m`. -/
structure ModelEnv where
  canRead : JsonVal → Bool
  readDocument : JsonVal → Option JsonVal

/-- Embedding of `CodeModelOptions`: the optional transform and the `noParse` flag. -/
structure CodeModelOptions where
  modelTransform : Option (JsonVal → JsonVal)
  noParse : Option Bool

/-- The fate of the promise returned by `getModel`. -/
inductive GetModelOutcome
  | ok (v : JsonVal)
  | err (e : String)
  | pending
deriving DecidableEq

/-- The rejection message used when the host supplies no model data. -/
def emptyModelError : String :=
  "The host returned an empty model. Please make sure that a model has been configured for this template."

/-- The transform application shared by both resolution paths:
`if (model && modelTransform) transform(model) else model`. -/
def applyTransform (transform : Option (JsonVal → JsonVal)) (model : JsonVal) : JsonVal :=
  if model.jsTruthy then
    match transform with
    | some f => f model
    | none => model
  else model

/-- The body of the `process.on('message')` handler inside `getModel`
(src/src/internal-generator.ts lines 170-200): `none` when the message is
ignored (`cmd !== 'setModel'`), otherwise the settlement of the promise. -/
def handleSetModel (env : ModelEnv) (codeModelOptions : CodeModelOptions)
    (m : SetModelMsg) : Option (Except String JsonVal) :=
  if m.cmd ≠ "setModel" then none
  else some <|
    let parseJson : Bool := codeModelOptions.noParse ≠ some true
    match m.modelData with
    | none => Except.error emptyModelError
    | some d =>
      if d.jsTruthy = false then Except.error emptyModelError
      else
        let model : JsonVal :=
          if parseJson && env.canRead d then
            match env.readDocument d with
            | some docModel => docModel
            | none => JsonVal.null
          else d
        Except.ok (applyTransform codeModelOptions.modelTransform model)

/-- The mutable builder state of the `InternalGenerator` singleton:
`modelBuilderResult` (TS `null` is `JsonVal.null`) and `modelBuilderPromise`
(`none` = field is null, `some none` = pending promise, `some (some v)` =
promise resolved with `v`). -/
structure GenState where
  modelBuilderResult : JsonVal
  modelBuilderPromiseVal : Option (Option JsonVal)

/-- The state of a freshly constructed `InternalGenerator`. -/
def initGenState : GenState :=
  { modelBuilderResult := JsonVal.null, modelBuilderPromiseVal := none }

/-- Embedding of `InternalGenerator.getModelFromModelBuilder` (lines 209-231). -/
def getModelFromModelBuilder (st : GenState) (codeModelOptions : CodeModelOptions) :
    GetModelOutcome :=
  if st.modelBuilderResult.jsTruthy then
    GetModelOutcome.ok (applyTransform codeModelOptions.modelTransform st.modelBuilderResult)
  else
    match st.modelBuilderPromiseVal with
    | some (some v) => GetModelOutcome.ok (applyTransform codeModelOptions.modelTransform v)
    | some none => GetModelOutcome.pending
    | none => GetModelOutcome.err "An unexpected internal error has occured."

/-- Embedding of `InternalGenerator.getModel` (lines 161-207).  `incoming` is the stream of
messages subsequently delivered to the worker; the first `setModel` message
settles the promise (later settlements of an already-settled JS promise are
no-ops).  Returns the process messages this call sends, in order, together
with the promise's fate. -/
def getModel (st : GenState) (env : ModelEnv) (codeModelOptions : CodeModelOptions)
    (incoming : List SetModelMsg) : List String × GetModelOutcome :=
  if st.modelBuilderResult.jsTruthy || st.modelBuilderPromiseVal.isSome then
    ([], getModelFromModelBuilder st codeModelOptions)
  else
    let outcome :=
      match incoming.findSome? (handleSetModel env codeModelOptions) with
      | some (Except.ok v) => GetModelOutcome.ok v
      | some (Except.error e) => GetModelOutcome.err e
      | none => GetModelOutcome.pending
    (["getModel"], outcome)

/-- The state transition of a `buildModel` call (lines 233-262) at the moment
the call returns: `generateStarted` has been sent, the previous result is
cleared and the builder promise is pending. -/
def buildModelStart (st : GenState) : GenState × List String :=
  ({ st with modelBuilderResult := JsonVal.null, modelBuilderPromiseVal := some none },
   ["generateStarted"])

/-- The state transition when the builder's promise resolves with `r`:
the result is cached, the stored promise is resolved, `generateFinished` is
sent. -/
def builderResolves (st : GenState) (r : JsonVal) : GenState × List String :=
  ({ st with modelBuilderResult := r, modelBuilderPromiseVal := some (some r) },
   ["generateFinished"])

/-- Embedding of `InternalGenerator.generateFromModel` (lines 94-107): resolve the model,
then run `generateInternal` with the callback bound to it; a rejection is
logged via `console.log` and nothing else happens. -/
def generateFromModel (st : GenState) (env : ModelEnv)
    (codeModelOptions : CodeModelOptions) (genOptions : CodeGenerationOptions)
    (incoming : List SetModelMsg) (cwd : String) (defaultOutputMode : OutputMode)
    (openOk : Bool) (cbOutput : String) (fs : GenFs) : List GenEvent × GenFs :=
  let res := getModel st env codeModelOptions incoming
  let sendEvents := res.1.map GenEvent.sendMessage
  match res.2 with
  | GetModelOutcome.ok _ =>
    let gen := generateInternal cwd defaultOutputMode genOptions openOk cbOutput fs
    (sendEvents ++ gen.1, gen.2)
  | GetModelOutcome.err e => (sendEvents ++ [GenEvent.consoleLog e], fs)
  | GetModelOutcome.pending => (sendEvents, fs)

/-! ## Startup argument parsing (src/src/internal-generator.ts lines 35-74) -/

/-- Embedding of `InternalGenerator.parseOutputMode`: recognizes exactly the three mode
strings, `null` (here `none`) otherwise or when no value follows the flag. -/
def parseOutputMode (args : List String) (index : Nat) : Option OutputMode :=
  if args.length ≤ index + 1 then none
  else
    match args.get? (index + 1) with
    | none => none
    | some outputModeString =>
      match outputModeString with
      | "append" => some OutputMode.Append
      | "once" => some OutputMode.Once
      | "overwrite" => some OutputMode.Overwrite
      | _ => none

/-- Embedding of `InternalGenerator.parseTemplateArgs`: `JSON.parse` is modelled by the
`jsonParse` parameter; its exception is the `Except.error` case, which
propagates (there is no try/catch around the call). -/
def parseTemplateArgs (jsonParse : String → Except String JsonVal)
    (args : List String) (index : Nat) : Except String (Option JsonVal) :=
  if args.length ≤ index + 1 then Except.ok none
  else
    match args.get? (index + 1) with
    | none => Except.ok none
    | some templateArgsString =>
      if templateArgsString.length > 0 then (jsonParse templateArgsString).map some
      else Except.ok none

/-- The configuration fields `parseProcessArgs` mutates. -/
structure ParsedArgs where
  templateArgs : Option JsonVal
  outputMode : OutputMode
deriving DecidableEq

/-- One iteration of the `parseProcessArgs` for-loop at position `i`.  The
`||` in `parseOutputMode(args, index) || this.outputMode` operates on enum
values, so a parsed `Overwrite` (numeric 0, falsy) also keeps the prior
mode. -/
def parseArgsStep (jsonParse : String → Except String JsonVal)
    (args : List String) (acc : Except String ParsedArgs) (i : Nat) :
    Except String ParsedArgs :=
  match acc with
  | Except.error e => Except.error e
  | Except.ok st =>
    match args.get? i with
    | none => Except.ok st
    | some val =>
      if val = "--templateArgs" then
        (parseTemplateArgs jsonParse args i).map (fun t => { st with templateArgs := t })
      else if val = "--outputMode" then
        Except.ok { st with outputMode :=
          match parseOutputMode args i with
          | some m => if m.jsTruthy then m else st.outputMode
          | none => st.outputMode }
      else Except.ok st

/-- Embedding of `InternalGenerator.parseProcessArgs`, run from the constructor.  An
exception from `JSON.parse` aborts the loop and escapes the constructor. -/
def parseProcessArgs (jsonParse : String → Except String JsonVal)
    (args : List String) (st : ParsedArgs) : Except String ParsedArgs :=
  (List.range args.length).foldl (parseArgsStep jsonParse args) (Except.ok st)

/-- The configuration of a freshly constructed generator before argument
parsing: no template args, `Overwrite` output mode. -/
def initParsedArgs : ParsedArgs :=
  { templateArgs := none, outputMode := OutputMode.Overwrite }

/-! ## Indentation sequences (claim C5) -/

/-- One indentation-mutating call. -/
inductive IndentOp
  | inc
  | dec
  | clear
deriving DecidableEq

/-- Dispatch of one indentation call on the writer. -/
def applyIndentOp (w : StreamWriter) : IndentOp → StreamWriter
  | IndentOp.inc => w.increaseIndent
  | IndentOp.dec => w.decreaseIndent
  | IndentOp.clear => w.clearIndent

/-- A whole sequence of indentation calls. -/
def applyIndentOps (w : StreamWriter) (ops : List IndentOp) : StreamWriter :=
  ops.foldl applyIndentOp w

/-- Number of occurrences of a given call in the sequence. -/
def countOp (ops : List IndentOp) (o : IndentOp) : Nat :=
  (ops.filter (fun x => x = o)).length

theorem repCat_length (u : List Char) : ∀ n, (StreamWriter.repCat u n).length = n * u.length := by
  intro n
  induction n with
  | zero => simp [StreamWriter.repCat]
  | succ k ih => simp [StreamWriter.repCat, ih, Nat.succ_mul]

theorem applyIndentOp_fields (w : StreamWriter) (o : IndentOp) :
    (applyIndentOp w o).noIndent = w.noIndent ∧
    (applyIndentOp w o).indentString = w.indentString := by
  cases o <;>
    simp [applyIndentOp, StreamWriter.increaseIndent, StreamWriter.decreaseIndent,
      StreamWriter.clearIndent] <;>
    split <;> simp

theorem applyIndentOps_fields (ops : List IndentOp) :
    ∀ w : StreamWriter, (applyIndentOps w ops).noIndent = w.noIndent ∧
      (applyIndentOps w ops).indentString = w.indentString := by
  induction ops with
  | nil => intro w; simp [applyIndentOps]
  | cons o rest ih =>
    intro w
    have h1 := applyIndentOp_fields w o
    have h2 := ih (applyIndentOp w o)
    simp only [applyIndentOps, List.foldl_cons] at h2 ⊢
    exact ⟨h2.1.trans h1.1, h2.2.trans h1.2⟩

theorem applyIndentOp_nonneg (w : StreamWriter) (o : IndentOp)
    (h : 0 ≤ w.indent) : 0 ≤ (applyIndentOp w o).indent := by
  cases o with
  | inc =>
    simp only [applyIndentOp, StreamWriter.increaseIndent]
    omega
  | dec =>
    simp only [applyIndentOp, StreamWriter.decreaseIndent]
    split
    · simp only []
      omega
    · exact h
  | clear =>
    simp [applyIndentOp, StreamWriter.clearIndent]

theorem applyIndentOps_nonneg (ops : List IndentOp) :
    ∀ w : StreamWriter, 0 ≤ w.indent → 0 ≤ (applyIndentOps w ops).indent := by
  induction ops with
  | nil => intro w h; simpa [applyIndentOps] using h
  | cons o rest ih =>
    intro w h
    simpa only [applyIndentOps, List.foldl_cons] using
      ih (applyIndentOp w o) (applyIndentOp_nonneg w o h)

theorem applyIndentOps_lower (ops : List IndentOp) :
    ∀ w : StreamWriter, IndentOp.clear ∉ ops →
      w.indent + ((countOp ops IndentOp.inc : Int) - (countOp ops IndentOp.dec : Int)) ≤
        (applyIndentOps w ops).indent := by
  induction ops with
  | nil => intro w _; simp [applyIndentOps, countOp]
  | cons o rest ih =>
    intro w hmem
    have hor : o ≠ IndentOp.clear := fun h => hmem (by simp [h])
    have hrest : IndentOp.clear ∉ rest := fun h => hmem (by simp [h])
    have step := ih (applyIndentOp w o) hrest
    simp only [applyIndentOps, List.foldl_cons] at step ⊢
    cases o with
    | clear => exact absurd rfl hor
    | inc =>
      have hcnt_inc : countOp (IndentOp.inc :: rest) IndentOp.inc =
          countOp rest IndentOp.inc + 1 := by simp [countOp]
      have hcnt_dec : countOp (IndentOp.inc :: rest) IndentOp.dec =
          countOp rest IndentOp.dec := by simp [countOp]
      have hindent : (applyIndentOp w IndentOp.inc).indent = w.indent + 1 := by
        simp [applyIndentOp, StreamWriter.increaseIndent]
      rw [hcnt_inc, hcnt_dec]
      rw [hindent] at step
      push_cast
      push_cast at step
      omega
    | dec =>
      have hcnt_inc : countOp (IndentOp.dec :: rest) IndentOp.inc =
          countOp rest IndentOp.inc := by simp [countOp]
      have hcnt_dec : countOp (IndentOp.dec :: rest) IndentOp.dec =
          countOp rest IndentOp.dec + 1 := by simp [countOp]
      have hindent : w.indent - 1 ≤ (applyIndentOp w IndentOp.dec).indent := by
        simp only [applyIndentOp, StreamWriter.decreaseIndent]
        split <;> simp <;> omega
      rw [hcnt_inc, hcnt_dec]
      push_cast
      have := le_trans (by omega : w.indent - 1 +
        ((countOp rest IndentOp.inc : Int) - (countOp rest IndentOp.dec : Int)) ≤
        (applyIndentOp w IndentOp.dec).indent +
        ((countOp rest IndentOp.inc : Int) - (countOp rest IndentOp.dec : Int))) step
      push_cast at this
      omega

/-- C5 (amended).  For every sequence of increaseIndent/decreaseIndent/
clearIndent calls on a fresh StreamWriter, the indent level stays
non-negative (decreaseIndent at level zero is a no-op), and the rendered
indent prefix of the next indented write has length `level × indentString
length`, where `level` is the running fold of the sequence (increment,
clamped decrement, reset to zero).  For sequences without clearIndent the
level is bounded below by `max 0 (#increases − #decreases)`, but — contrary
to the original claim — is not in general equal to it, because a decrease at
level zero is dropped rather than carried. -/
theorem indent_ops_spec (dirName eol : List Char) (ops : List IndentOp) :
    0 ≤ (applyIndentOps (mkStreamWriter dirName eol) ops).indent ∧
    (applyIndentOps (mkStreamWriter dirName eol) ops).createIndentString.length =
      (applyIndentOps (mkStreamWriter dirName eol) ops).indent.toNat *
        (mkStreamWriter dirName eol).indentString.length ∧
    (IndentOp.clear ∉ ops →
      max 0 ((countOp ops IndentOp.inc : Int) - (countOp ops IndentOp.dec : Int)) ≤
        (applyIndentOps (mkStreamWriter dirName eol) ops).indent) := by
  have hfields := applyIndentOps_fields ops (mkStreamWriter dirName eol)
  have hnn := applyIndentOps_nonneg ops (mkStreamWriter dirName eol)
    (by simp [mkStreamWriter])
  refine ⟨hnn, ?_, ?_⟩
  · rw [StreamWriter.createIndentString, hfields.1, hfields.2]
    simp [mkStreamWriter, repCat_length]
  · intro hclear
    have hlow := applyIndentOps_lower ops (mkStreamWriter dirName eol) hclear
    have h0 : (mkStreamWriter dirName eol).indent = 0 := rfl
    rw [h0] at hlow
    exact max_le hnn (by omega)

/-- Witness for C5's amended theorem at the sequence `[dec, inc, inc]`. -/
theorem indent_ops_spec_witness :
    0 ≤ (applyIndentOps (mkStreamWriter "T".toList "\n".toList)
      [IndentOp.dec, IndentOp.inc, IndentOp.inc]).indent ∧
    max 0 ((countOp [IndentOp.dec, IndentOp.inc, IndentOp.inc] IndentOp.inc : Int) -
        (countOp [IndentOp.dec, IndentOp.inc, IndentOp.inc] IndentOp.dec : Int)) ≤
      (applyIndentOps (mkStreamWriter "T".toList "\n".toList)
        [IndentOp.dec, IndentOp.inc, IndentOp.inc]).indent := by
  have h := indent_ops_spec "T".toList "\n".toList
    [IndentOp.dec, IndentOp.inc, IndentOp.inc]
  exact ⟨h.1, h.2.2 (by decide)⟩

/-- C5 counterexample.  After the call sequence `[decreaseIndent,
increaseIndent]` on a fresh writer the rendered indent prefix has length 1
(one tab), while the claimed formula `max(0, #inc − #dec) × |indentString|`
yields 0: the decrease at level zero was a no-op, so it does not cancel the
later increase. -/
theorem indent_formula_counterexample :
    (applyIndentOps (mkStreamWriter "T".toList "\n".toList)
      [IndentOp.dec, IndentOp.inc]).createIndentString.length = 1 ∧
    (max 0 ((countOp [IndentOp.dec, IndentOp.inc] IndentOp.inc : Int) -
        (countOp [IndentOp.dec, IndentOp.inc] IndentOp.dec : Int))).toNat *
      ("\t".toList).length = 0 ∧
    (1 : Nat) ≠ 0 := by
  refine ⟨?_, by decide, by decide⟩
  decide

/-! ## Line counting (claims C6, C7) -/

/-- C6 (amended).  Every line-producing call increments the total line
counter `loc` by exactly one per line.  The significant-line counter `sloc`
increments (when counting is not frozen) whenever the call received a string
argument — including the empty string — and for every `writeEndOfLine` call
even without an argument: the implementation keys `sloc` on the presence of
the `value` argument (`value != null`), not on whether the emitted line
actually carries non-empty content.  `writeLine()` with no argument writes
exactly one line terminator, increments `loc`, and never increments `sloc`. -/
theorem line_counting_spec (w : StreamWriter) (v : List Char)
    (h : w.noEndOfLine = false) :
    (w.writeLine (some v)).loc = w.loc + 1 ∧
    (w.writeLine (some v)).sloc = w.sloc + (if w.countSloc then 1 else 0) ∧
    (w.writeLine none).loc = w.loc + 1 ∧
    (w.writeLine none).sloc = w.sloc ∧
    (w.writeLine none).output = w.output ++ w.endOfLineString ∧
    (w.writeEndOfLine none).loc = w.loc + 1 ∧
    (w.writeEndOfLine none).sloc = w.sloc + (if w.countSloc then 1 else 0) := by
  cases hcs : w.countSloc <;>
    simp [StreamWriter.writeLine, StreamWriter.writeEndOfLine,
      StreamWriter.incrementLoc, StreamWriter.cWrite, h, hcs]

/-- Witness for C6's amended theorem: a bare `writeLine()` on a fresh writer. -/
theorem line_counting_spec_witness :
    ((mkStreamWriter "T".toList "\n".toList).writeLine none).loc = 1 ∧
    ((mkStreamWriter "T".toList "\n".toList).writeLine none).sloc = 0 := by
  have h := line_counting_spec (mkStreamWriter "T".toList "\n".toList) [] rfl
  exact ⟨h.2.2.1, h.2.2.2.1⟩

/-- C6 counterexample.  `writeLine("")` on a fresh writer emits a line whose
content is empty (the stream receives only the line terminator), yet `sloc`
is incremented from 0 to 1 — contradicting "the significant-line counter
increments only when the line carries non-empty content". -/
theorem line_counting_counterexample :
    ((mkStreamWriter "T".toList "\n".toList).writeLine (some [])).output =
      (mkStreamWriter "T".toList "\n".toList).endOfLineString ∧
    ((mkStreamWriter "T".toList "\n".toList).writeLine (some [])).sloc = 1 ∧
    (mkStreamWriter "T".toList "\n".toList).sloc = 0 := by
  refine ⟨by decide, by decide, rfl⟩

/-- A run of `writeLine(v)` calls, one per element. -/
def writeLineSeq (w : StreamWriter) (values : List (List Char)) : StreamWriter :=
  values.foldl (fun acc v => acc.writeLine (some v)) w

theorem writeLine_frozen (w : StreamWriter) (v : List Char)
    (h : w.countSloc = false) :
    (w.writeLine (some v)).countSloc = false ∧
    (w.writeLine (some v)).sloc = w.sloc ∧
    (w.writeLine (some v)).loc = w.loc + 1 := by
  cases hne : w.noEndOfLine <;>
    simp [StreamWriter.writeLine, StreamWriter.incrementLoc, StreamWriter.cWrite,
      h, hne]

theorem writeLineSeq_frozen (values : List (List Char)) :
    ∀ w : StreamWriter, w.countSloc = false →
      (writeLineSeq w values).countSloc = false ∧
      (writeLineSeq w values).sloc = w.sloc ∧
      (writeLineSeq w values).loc = w.loc + values.length := by
  induction values with
  | nil => intro w h; simp [writeLineSeq, h]
  | cons v rest ih =>
    intro w h
    have hstep := writeLine_frozen w v h
    have hrec := ih (w.writeLine (some v)) hstep.1
    simp only [writeLineSeq, List.foldl_cons] at hrec ⊢
    refine ⟨hrec.1, hrec.2.1.trans hstep.2.1, ?_⟩
    rw [hrec.2.2, hstep.2.2, List.length_cons]
    omega

/-- C7 (confirmed).  Wrapping N non-empty `writeLine` calls between
`freezeSloc()` and `unfreezeSloc()` leaves the significant-line counter
unchanged while the total line counter increases by N; and
`withFrozenSloc(block)` re-enables significant-line counting after the block
no matter what the block does, so counting is restored even when the block
is the writer's final call. -/
theorem sloc_freeze_spec (w : StreamWriter) (values : List (List Char))
    (hne : ∀ v ∈ values, v ≠ []) :
    ((writeLineSeq w.freezeSloc values).unfreezeSloc.sloc = w.sloc ∧
     (writeLineSeq w.freezeSloc values).unfreezeSloc.loc = w.loc + values.length) ∧
    (∀ f : StreamWriter → StreamWriter,
      (w.withFrozenSloc (some f)).countSloc = true) := by
  constructor
  · have h := writeLineSeq_frozen values w.freezeSloc (by simp [StreamWriter.freezeSloc])
    constructor
    · simpa [StreamWriter.unfreezeSloc, StreamWriter.freezeSloc] using h.2.1
    · simpa [StreamWriter.unfreezeSloc, StreamWriter.freezeSloc] using h.2.2
  · intro f
    simp [StreamWriter.withFrozenSloc]

/-- Witness for C7 at two non-empty lines and an indent-mutating block. -/
theorem sloc_freeze_spec_witness :
    (writeLineSeq (mkStreamWriter "T".toList "\n".toList).freezeSloc
      ["a".toList, "b".toList]).unfreezeSloc.sloc = 0 ∧
    (writeLineSeq (mkStreamWriter "T".toList "\n".toList).freezeSloc
      ["a".toList, "b".toList]).unfreezeSloc.loc = 2 ∧
    ((mkStreamWriter "T".toList "\n".toList).withFrozenSloc
      (some StreamWriter.increaseIndent)).countSloc = true := by
  have h := sloc_freeze_spec (mkStreamWriter "T".toList "\n".toList)
    ["a".toList, "b".toList] (by decide)
  exact ⟨h.1.1, h.1.2, h.2 StreamWriter.increaseIndent⟩

/-! ## Region extraction (claims C2, C8) -/

theorem findAux_eq_none (pat s : List Char) (h : ∀ j, ¬ occursAt pat s j) :
    findAux pat s = none := by
  cases hfa : findAux pat s with
  | none => rfl
  | some i => exact absurd (findAux_sound pat s i hfa) (h i)

theorem incrementLoc_output (w : StreamWriter) (b : Bool) :
    (w.incrementLoc b).output = w.output := by
  unfold StreamWriter.incrementLoc
  dsimp only
  split <;> rfl

/-- Embedding of `readTextFile` touches only the `textFileCache` field of the writer. -/
theorem readTextFile_state (w : StreamWriter) (fs : FsMap) (p : List Char)
    (useCache : Bool) (enc : Option (List Char)) :
    ∃ cache, (w.readTextFile fs p useCache enc).2 = { w with textFileCache := cache } := by
  unfold StreamWriter.readTextFile
  repeat' split
  all_goals exact ⟨_, rfl⟩

/-- C2 (amended).  With the default region marker format, for every file read
that yields `contents`: if the start marker occurs and the end marker occurs
at or after it, `writeFileRegion` returns true and appends exactly the
substring strictly between the first start marker occurrence and the first
end marker occurrence at or after it — which includes the newline that
follows the start marker line (for `/// <foo>\nBODY\n/// </foo>` the
appended text is `\nBODY\n`, not `BODY\n`) — followed by the active line
terminator.  If the start marker occurs nowhere, or the end marker occurs
nowhere, it returns false and writes nothing. -/
theorem writeFileRegion_spec (w : StreamWriter) (fs : FsMap)
    (regionName p contents : List Char)
    (hname : regionName ≠ []) (hp : p ≠ [])
    (hfmtS : w.regionStartMarkerOf = defaultRegionStartMarker)
    (hfmtE : w.regionEndMarkerOf = defaultRegionEndMarker)
    (hnoeol : w.noEndOfLine = false)
    (hread : (w.readTextFile fs (w.resolveFileName p) true none).1 = some contents) :
    ((∃ i j, i ≤ j ∧ occursAt (defaultRegionStartMarker regionName) contents i ∧
        occursAt (defaultRegionEndMarker regionName) contents j) →
      (w.writeFileRegion fs regionName p none).1 = true ∧
      ∃ s0 e0, findAux (defaultRegionStartMarker regionName) contents = some s0 ∧
        findFrom (defaultRegionEndMarker regionName) contents s0 = some e0 ∧
        (w.writeFileRegion fs regionName p none).2.output =
          w.output ++ jsSubstring contents
            (s0 + (defaultRegionStartMarker regionName).length) e0 ++
            w.endOfLineString) ∧
    ((∀ i, ¬ occursAt (defaultRegionStartMarker regionName) contents i) →
      (w.writeFileRegion fs regionName p none).1 = false ∧
      (w.writeFileRegion fs regionName p none).2.output = w.output) ∧
    ((∀ j, ¬ occursAt (defaultRegionEndMarker regionName) contents j) →
      (w.writeFileRegion fs regionName p none).1 = false ∧
      (w.writeFileRegion fs regionName p none).2.output = w.output) := by
  obtain ⟨cache, hcache⟩ := readTextFile_state w fs (w.resolveFileName p) true none
  have hstart_ne : defaultRegionStartMarker regionName ≠ [] := by
    simp [defaultRegionStartMarker]
  refine ⟨?_, ?_, ?_⟩
  · rintro ⟨i, j, hij, hsi, hej⟩
    have hcne : contents ≠ [] := by
      intro hc
      subst hc
      unfold occursAt at hsi
      simp at hsi
      exact hstart_ne hsi
    obtain ⟨s0, hs0, hs0le⟩ :=
      findAux_complete (defaultRegionStartMarker regionName) contents i hsi
    obtain ⟨e0, he0, _⟩ :=
      findFrom_complete (defaultRegionEndMarker regionName) contents s0 j hej
        (le_trans hs0le hij)
    refine ⟨?_, s0, e0, hs0, he0, ?_⟩ <;>
      simp [StreamWriter.writeFileRegion, hname, hp, hread, hcache, hcne,
        hfmtS, hfmtE, hs0, he0, StreamWriter.cWrite, StreamWriter.writeEndOfLine,
        incrementLoc_output, hnoeol]
  · intro hnone
    have hfa := findAux_eq_none _ _ hnone
    by_cases hcne : contents = []
    · subst hcne
      constructor <;>
        simp [StreamWriter.writeFileRegion, hname, hp, hread, hcache]
    · constructor <;>
        simp [StreamWriter.writeFileRegion, hname, hp, hread, hcache, hcne,
          hfmtS, hfa]
  · intro hnone
    have hff : ∀ s0, findFrom (defaultRegionEndMarker regionName) contents s0 = none :=
      fun s0 => findFrom_none _ _ s0 hnone
    by_cases hcne : contents = []
    · subst hcne
      constructor <;>
        simp [StreamWriter.writeFileRegion, hname, hp, hread, hcache]
    · cases hfa : findAux (defaultRegionStartMarker regionName) contents with
      | none =>
        constructor <;>
          simp [StreamWriter.writeFileRegion, hname, hp, hread, hcache, hcne,
            hfmtS, hfa]
      | some s0 =>
        constructor <;>
          simp [StreamWriter.writeFileRegion, hname, hp, hread, hcache, hcne,
            hfmtS, hfmtE, hfa, hff s0]

/-- Witness for C2's amended theorem at the round-trip example file. -/
theorem writeFileRegion_spec_witness :
    ((mkStreamWriter "T".toList "\n".toList).writeFileRegion
      [(pathJoinL "T".toList "f".toList, "/// <foo>\nBODY\n/// </foo>".toList)]
      "foo".toList "f".toList none).1 = true := by
  have h := writeFileRegion_spec (mkStreamWriter "T".toList "\n".toList)
    [(pathJoinL "T".toList "f".toList, "/// <foo>\nBODY\n/// </foo>".toList)]
    "foo".toList "f".toList "/// <foo>\nBODY\n/// </foo>".toList
    (by decide) (by decide) rfl rfl rfl (by decide)
  exact (h.1 ⟨0, 15, by decide, by decide, by decide⟩).1

/-- C2 counterexample.  For the file `/// <foo>\nBODY\n/// </foo>` the call
`writeFileRegion("foo", path)` returns true but writes `\nBODY\n` plus the
line terminator — the newline that follows the start marker is part of the
extracted region — whereas the claim says exactly `BODY\n` plus the
terminator is written. -/
theorem writeFileRegion_counterexample :
    ((mkStreamWriter "T".toList "\n".toList).writeFileRegion
      [(pathJoinL "T".toList "f".toList, "/// <foo>\nBODY\n/// </foo>".toList)]
      "foo".toList "f".toList none).1 = true ∧
    ((mkStreamWriter "T".toList "\n".toList).writeFileRegion
      [(pathJoinL "T".toList "f".toList, "/// <foo>\nBODY\n/// </foo>".toList)]
      "foo".toList "f".toList none).2.output = "\nBODY\n\n".toList ∧
    "\nBODY\n\n".toList ≠ ("BODY\n" ++ "\n").toList := by
  exact ⟨by decide, by decide, by decide⟩

theorem incrementLoc_fields (w : StreamWriter) (b : Bool) :
    (w.incrementLoc b).textFileCache = w.textFileCache ∧
    (w.incrementLoc b).templateDirName = w.templateDirName ∧
    (w.incrementLoc b).endOfLineString = w.endOfLineString ∧
    (w.incrementLoc b).noEndOfLine = w.noEndOfLine ∧
    (w.incrementLoc b).regionStartMarkerOf = w.regionStartMarkerOf ∧
    (w.incrementLoc b).regionEndMarkerOf = w.regionEndMarkerOf := by
  unfold StreamWriter.incrementLoc
  dsimp only
  split <;> simp

/-- The region computation `writeFileRegion` performs once the file contents
are in hand (proof-level view of the code after its `readTextFile` call;
`w` supplies the region marker formatter, `w1` is the writer returned by the
read). -/
def regionStep (w w1 : StreamWriter) (regionName : List Char)
    (co : Option (List Char)) : Bool × StreamWriter :=
  match co with
  | none => (false, w1)
  | some contents =>
    if contents = [] then (false, w1)
    else
      match findAux (w.regionStartMarkerOf regionName) contents with
      | none => (false, w1)
      | some regionStartIndex =>
        match findFrom (w.regionEndMarkerOf regionName) contents regionStartIndex with
        | none => (false, w1)
        | some regionEndIndex =>
          (true, (w1.cWrite (jsSubstring contents
            (regionStartIndex + (w.regionStartMarkerOf regionName).length)
            regionEndIndex)).writeEndOfLine none)

/-- The success boolean of a region extraction, as a function of the markers
and the contents alone. -/
def regionResult (sm em : List Char) (co : Option (List Char)) : Bool :=
  match co with
  | none => false
  | some contents =>
    if contents = [] then false
    else
      match findAux sm contents with
      | none => false
      | some s0 => (findFrom em contents s0).isSome

/-- The text a region extraction appends to the stream, as a function of the
markers, the contents and the line terminator alone. -/
def regionDelta (sm em : List Char) (co : Option (List Char))
    (eol : List Char) : List Char :=
  match co with
  | none => []
  | some contents =>
    if contents = [] then []
    else
      match findAux sm contents with
      | none => []
      | some s0 =>
        match findFrom em contents s0 with
        | none => []
        | some e0 => jsSubstring contents (s0 + sm.length) e0 ++ eol

theorem writeFileRegion_eq_regionStep (w : StreamWriter) (fs : FsMap)
    (regionName p : List Char) (enc : Option (List Char))
    (hname : regionName ≠ []) (hp : p ≠ []) :
    w.writeFileRegion fs regionName p enc =
      regionStep w (w.readTextFile fs (w.resolveFileName p) true enc).2 regionName
        (w.readTextFile fs (w.resolveFileName p) true enc).1 := by
  unfold StreamWriter.writeFileRegion
  rw [if_neg (by simp [hname, hp] : ¬(regionName = [] ∨ p = []))]
  rfl

theorem regionStep_spec (w w1 : StreamWriter) (regionName : List Char)
    (co : Option (List Char)) (hne : w1.noEndOfLine = false) :
    (regionStep w w1 regionName co).1 =
      regionResult (w.regionStartMarkerOf regionName)
        (w.regionEndMarkerOf regionName) co ∧
    (regionStep w w1 regionName co).2.output =
      w1.output ++ regionDelta (w.regionStartMarkerOf regionName)
        (w.regionEndMarkerOf regionName) co w1.endOfLineString ∧
    (regionStep w w1 regionName co).2.textFileCache = w1.textFileCache ∧
    (regionStep w w1 regionName co).2.templateDirName = w1.templateDirName ∧
    (regionStep w w1 regionName co).2.endOfLineString = w1.endOfLineString ∧
    (regionStep w w1 regionName co).2.noEndOfLine = w1.noEndOfLine ∧
    (regionStep w w1 regionName co).2.regionStartMarkerOf = w1.regionStartMarkerOf ∧
    (regionStep w w1 regionName co).2.regionEndMarkerOf = w1.regionEndMarkerOf := by
  unfold regionStep regionResult regionDelta
  cases co with
  | none => simp
  | some contents =>
    by_cases hce : contents = []
    · simp [hce]
    · cases hfa : findAux (w.regionStartMarkerOf regionName) contents with
      | none => simp [hce, hfa]
      | some s0 =>
        cases hff : findFrom (w.regionEndMarkerOf regionName) contents s0 with
        | none => simp [hce, hfa, hff]
        | some e0 =>
          simp [hce, hfa, hff, StreamWriter.writeEndOfLine, StreamWriter.cWrite,
            incrementLoc_output, incrementLoc_fields, hne]

theorem readTextFile_fresh (w : StreamWriter) (fs : FsMap) (p : List Char)
    (enc : Option (List Char)) (hcache0 : w.textFileCache = [])
    (hfind : assocFind fs p = none ∨ ∃ c, assocFind fs p = some c ∧ c ≠ []) :
    ∃ co, w.readTextFile fs p true enc = (co, { w with textFileCache := [(p, co)] }) := by
  rcases hfind with habs | ⟨c, hc, hcne⟩
  · refine ⟨none, ?_⟩
    unfold StreamWriter.readTextFile
    simp [hcache0, assocFind, habs]
  · refine ⟨some (if (match enc with
      | some e => e.map Char.toLower
      | none => "utf-8".toList) = "utf-8".toList then stripBom c else c), ?_⟩
    unfold StreamWriter.readTextFile
    simp [hcache0, assocFind, hc, hcne]

theorem readTextFile_hit (w : StreamWriter) (fs : FsMap) (p : List Char)
    (enc : Option (List Char)) (co : Option (List Char))
    (hcache : assocFind w.textFileCache p = some co) :
    w.readTextFile fs p true enc = (co, w) := by
  unfold StreamWriter.readTextFile
  simp [hcache]

/-- C8 (amended).  Two consecutive `writeFileRegion` calls against the same
path (same region name and formatter) on a writer with an empty cache return
identical results and write identical content even if the underlying file
changes between the calls, provided the first read finds the path absent
(cached as null) or bound to non-empty contents (cached after BOM handling).
An existing empty file, however, is returned before the cache write and is
therefore not cached — contrary to the claim's "absent or empty file cached
as null" — so in that one case the second call re-reads the possibly changed
file and may differ. -/
theorem writeFileRegion_cache_spec (w : StreamWriter) (fs1 fs2 : FsMap)
    (regionName p : List Char) (enc : Option (List Char))
    (hname : regionName ≠ []) (hp : p ≠ [])
    (hne : w.noEndOfLine = false)
    (hcache0 : w.textFileCache = [])
    (hfind : assocFind fs1 (w.resolveFileName p) = none ∨
      ∃ c, assocFind fs1 (w.resolveFileName p) = some c ∧ c ≠ []) :
    ((w.writeFileRegion fs1 regionName p enc).2.writeFileRegion fs2 regionName p enc).1 =
      (w.writeFileRegion fs1 regionName p enc).1 ∧
    ∃ d, (w.writeFileRegion fs1 regionName p enc).2.output = w.output ++ d ∧
      ((w.writeFileRegion fs1 regionName p enc).2.writeFileRegion fs2 regionName p enc).2.output =
        (w.writeFileRegion fs1 regionName p enc).2.output ++ d := by
  obtain ⟨co, hread1⟩ := readTextFile_fresh w fs1 (w.resolveFileName p) enc hcache0 hfind
  have heq1 := writeFileRegion_eq_regionStep w fs1 regionName p enc hname hp
  rw [hread1] at heq1
  set w1 : StreamWriter := { w with textFileCache := [(w.resolveFileName p, co)] } with hw1
  have hspec1 := regionStep_spec w w1 regionName co hne
  -- the first call's result writer
  set r1 : StreamWriter := (w.writeFileRegion fs1 regionName p enc).2 with hr1
  have hr1step : r1 = (regionStep w w1 regionName co).2 := by rw [hr1, heq1]
  have hr1cache : r1.textFileCache = [(w.resolveFileName p, co)] := by
    rw [hr1step, hspec1.2.2.1]
  have hr1dir : r1.templateDirName = w.templateDirName := by
    rw [hr1step, hspec1.2.2.2.1]
  have hr1eol : r1.endOfLineString = w.endOfLineString := by
    rw [hr1step, hspec1.2.2.2.2.1]
  have hr1ne : r1.noEndOfLine = false := by
    rw [hr1step, hspec1.2.2.2.2.2.1]
    exact hne
  have hr1sm : r1.regionStartMarkerOf = w.regionStartMarkerOf := by
    rw [hr1step, hspec1.2.2.2.2.2.2.1]
  have hr1em : r1.regionEndMarkerOf = w.regionEndMarkerOf := by
    rw [hr1step, hspec1.2.2.2.2.2.2.2]
  -- the second call hits the cache
  have hfull : r1.resolveFileName p = w.resolveFileName p := by
    unfold StreamWriter.resolveFileName
    rw [hr1dir]
  have hread2 : r1.readTextFile fs2 (r1.resolveFileName p) true enc = (co, r1) := by
    apply readTextFile_hit
    rw [hfull, hr1cache]
    simp [assocFind]
  have heq2 := writeFileRegion_eq_regionStep r1 fs2 regionName p enc hname hp
  rw [hread2] at heq2
  have hspec2 := regionStep_spec r1 r1 regionName co hr1ne
  constructor
  · rw [heq2, heq1, hspec2.1, hspec1.1, hr1sm, hr1em]
  · refine ⟨regionDelta (w.regionStartMarkerOf regionName)
      (w.regionEndMarkerOf regionName) co w.endOfLineString, ?_, ?_⟩
    · rw [hr1step, hspec1.2.1]
    · rw [heq2, hspec2.2.1, hr1sm, hr1em, hr1eol]

/-- Witness for C8's amended theorem: same file present and non-empty on the
first read, removed before the second call. -/
theorem writeFileRegion_cache_spec_witness :
    (((mkStreamWriter "T".toList "\n".toList).writeFileRegion
        [(pathJoinL "T".toList "f".toList, "/// <foo>\nBODY\n/// </foo>".toList)]
        "foo".toList "f".toList none).2.writeFileRegion
        [] "foo".toList "f".toList none).1 =
      ((mkStreamWriter "T".toList "\n".toList).writeFileRegion
        [(pathJoinL "T".toList "f".toList, "/// <foo>\nBODY\n/// </foo>".toList)]
        "foo".toList "f".toList none).1 := by
  have h := writeFileRegion_cache_spec (mkStreamWriter "T".toList "\n".toList)
    [(pathJoinL "T".toList "f".toList, "/// <foo>\nBODY\n/// </foo>".toList)]
    [] "foo".toList "f".toList none
    (by decide) (by decide) rfl rfl
    (Or.inr ⟨"/// <foo>\nBODY\n/// </foo>".toList, by decide, by decide⟩)
  exact h.1

/-- C8 counterexample.  With an existing but empty file at the path, the
first `writeFileRegion` call returns false and caches nothing; after the
file changes to contain the region, the second call on the same writer
returns true — the two consecutive calls do not return identical results,
because an existing empty file is not cached as null. -/
theorem writeFileRegion_cache_counterexample :
    ((mkStreamWriter "T".toList "\n".toList).writeFileRegion
      [(pathJoinL "T".toList "f".toList, [])]
      "foo".toList "f".toList none).1 = false ∧
    (((mkStreamWriter "T".toList "\n".toList).writeFileRegion
        [(pathJoinL "T".toList "f".toList, [])]
        "foo".toList "f".toList none).2.writeFileRegion
      [(pathJoinL "T".toList "f".toList, "/// <foo>\nBODY\n/// </foo>".toList)]
      "foo".toList "f".toList none).1 = true ∧
    (false : Bool) ≠ true := by
  exact ⟨by decide, by decide, by decide⟩

/-! ## generateInternal: Once short-circuit and message ordering (C1, C9) -/

/-- C1 (confirmed).  When the effective output mode is Once and the resolved
output file already exists, `generateInternal` ensures the directory, sends
`generateStarted` and `generateFinished`, and returns: no write stream is
created, the template callback is never invoked, and the file system —
in particular the existing file's contents — is unchanged. -/
theorem generateInternal_once_spec (cwd : String) (defaultOutputMode : OutputMode)
    (options : CodeGenerationOptions) (openOk : Bool) (cbOutput : String)
    (fs : GenFs)
    (hmode : (match options.outputMode with
      | none => defaultOutputMode
      | some m => m) = OutputMode.Once)
    (hexist : genFsExists fs (pathJoinS cwd options.outputFile) = true) :
    generateInternal cwd defaultOutputMode options openOk cbOutput fs =
      ([GenEvent.ensureDirectory (pathDirname (pathJoinS cwd options.outputFile)),
        GenEvent.sendMessage "generateStarted",
        GenEvent.sendMessage "generateFinished"], fs) ∧
    GenEvent.callbackInvoked ∉
      (generateInternal cwd defaultOutputMode options openOk cbOutput fs).1 ∧
    (∀ q g, GenEvent.createWriteStream q g ∉
      (generateInternal cwd defaultOutputMode options openOk cbOutput fs).1) := by
  have htrace : generateInternal cwd defaultOutputMode options openOk cbOutput fs =
      ([GenEvent.ensureDirectory (pathDirname (pathJoinS cwd options.outputFile)),
        GenEvent.sendMessage "generateStarted",
        GenEvent.sendMessage "generateFinished"], fs) := by
    unfold generateInternal
    simp [hmode, hexist]
  refine ⟨htrace, ?_, ?_⟩
  · rw [htrace]
    simp
  · intro q g
    rw [htrace]
    simp

/-- Witness for C1 at a concrete pre-existing output file. -/
theorem generateInternal_once_spec_witness :
    generateInternal "C" OutputMode.Overwrite
      { outputFile := "out.txt", outputMode := some OutputMode.Once }
      true "NEW" [("C/out.txt", "OLD")] =
      ([GenEvent.ensureDirectory "C",
        GenEvent.sendMessage "generateStarted",
        GenEvent.sendMessage "generateFinished"], [("C/out.txt", "OLD")]) := by
  have h := generateInternal_once_spec "C" OutputMode.Overwrite
    { outputFile := "out.txt", outputMode := some OutputMode.Once }
    true "NEW" [("C/out.txt", "OLD")] rfl (by decide)
  exact h.1

/-- C9 (confirmed).  Within every `generateInternal` call the effects occur
in the algorithm's order: the first two effects are the directory creation
and the `generateStarted` send (so `generateStarted` precedes any stream
opening and any callback execution); whenever `generateFinished` is sent it
is the final effect; whenever the callback ran, the trace ends with
callback, stream close, `generateFinished` — the finish message is sent only
after the callback's completion promise resolved and the stream was ended —
and the stream had been opened before the callback; and in the Once
short-circuit the trace is exactly ensure-directory, `generateStarted`,
`generateFinished`, with no callback in between. -/
theorem generateInternal_message_order (cwd : String)
    (defaultOutputMode : OutputMode) (options : CodeGenerationOptions)
    (openOk : Bool) (cbOutput : String) (fs : GenFs) :
    ((generateInternal cwd defaultOutputMode options openOk cbOutput fs).1.take 2 =
      [GenEvent.ensureDirectory (pathDirname (pathJoinS cwd options.outputFile)),
       GenEvent.sendMessage "generateStarted"]) ∧
    (GenEvent.sendMessage "generateFinished" ∈
        (generateInternal cwd defaultOutputMode options openOk cbOutput fs).1 →
      (generateInternal cwd defaultOutputMode options openOk cbOutput fs).1.getLast? =
        some (GenEvent.sendMessage "generateFinished")) ∧
    (GenEvent.callbackInvoked ∈
        (generateInternal cwd defaultOutputMode options openOk cbOutput fs).1 →
      ∃ pre, (generateInternal cwd defaultOutputMode options openOk cbOutput fs).1 =
          pre ++ [GenEvent.callbackInvoked, GenEvent.streamEnd,
            GenEvent.sendMessage "generateFinished"] ∧
        GenEvent.createWriteStream (pathJoinS cwd options.outputFile)
          (if (match options.outputMode with
            | none => defaultOutputMode
            | some m => m) = OutputMode.Append then "a" else "w") ∈ pre) ∧
    ((match options.outputMode with
        | none => defaultOutputMode
        | some m => m) = OutputMode.Once ∧
      genFsExists fs (pathJoinS cwd options.outputFile) = true →
      (generateInternal cwd defaultOutputMode options openOk cbOutput fs).1 =
        [GenEvent.ensureDirectory (pathDirname (pathJoinS cwd options.outputFile)),
         GenEvent.sendMessage "generateStarted",
         GenEvent.sendMessage "generateFinished"]) := by
  by_cases hshort : (match options.outputMode with
      | none => defaultOutputMode
      | some m => m) = OutputMode.Once ∧
      genFsExists fs (pathJoinS cwd options.outputFile) = true
  · have htrace : (generateInternal cwd defaultOutputMode options openOk cbOutput fs).1 =
        [GenEvent.ensureDirectory (pathDirname (pathJoinS cwd options.outputFile)),
         GenEvent.sendMessage "generateStarted",
         GenEvent.sendMessage "generateFinished"] := by
      unfold generateInternal
      simp [hshort.1, hshort.2]
    rw [htrace]
    refine ⟨rfl, fun _ => rfl, ?_, fun _ => rfl⟩
    intro hmem
    simp at hmem
  · cases hopen : openOk with
    | true =>
      have htrace : (generateInternal cwd defaultOutputMode options openOk cbOutput fs).1 =
          [GenEvent.ensureDirectory (pathDirname (pathJoinS cwd options.outputFile)),
           GenEvent.sendMessage "generateStarted",
           GenEvent.createWriteStream (pathJoinS cwd options.outputFile)
             (if (match options.outputMode with
               | none => defaultOutputMode
               | some m => m) = OutputMode.Append then "a" else "w"),
           GenEvent.callbackInvoked, GenEvent.streamEnd,
           GenEvent.sendMessage "generateFinished"] := by
        unfold generateInternal
        rw [if_neg hshort]
        simp [hopen]
      rw [hopen] at htrace
      rw [htrace]
      refine ⟨rfl, fun _ => rfl, ?_, fun hc => absurd hc hshort⟩
      intro _
      refine ⟨[GenEvent.ensureDirectory (pathDirname (pathJoinS cwd options.outputFile)),
        GenEvent.sendMessage "generateStarted",
        GenEvent.createWriteStream (pathJoinS cwd options.outputFile)
          (if (match options.outputMode with
            | none => defaultOutputMode
            | some m => m) = OutputMode.Append then "a" else "w")], rfl, ?_⟩
      simp
    | false =>
      have htrace : (generateInternal cwd defaultOutputMode options openOk cbOutput fs).1 =
          [GenEvent.ensureDirectory (pathDirname (pathJoinS cwd options.outputFile)),
           GenEvent.sendMessage "generateStarted",
           GenEvent.createWriteStream (pathJoinS cwd options.outputFile)
             (if (match options.outputMode with
               | none => defaultOutputMode
               | some m => m) = OutputMode.Append then "a" else "w")] := by
        unfold generateInternal
        rw [if_neg hshort]
        simp [hopen]
      rw [hopen] at htrace
      rw [htrace]
      refine ⟨rfl, ?_, ?_, fun hc => absurd hc hshort⟩
      · intro hmem
        simp at hmem
      · intro hmem
        simp at hmem

/-- Witness for C9 on a successful Overwrite-mode call. -/
theorem generateInternal_message_order_witness :
    ((generateInternal "C" OutputMode.Overwrite
        { outputFile := "o", outputMode := none } true "X" []).1.take 2 =
      [GenEvent.ensureDirectory "C", GenEvent.sendMessage "generateStarted"]) ∧
    (generateInternal "C" OutputMode.Overwrite
        { outputFile := "o", outputMode := none } true "X" []).1.getLast? =
      some (GenEvent.sendMessage "generateFinished") := by
  have h := generateInternal_message_order "C" OutputMode.Overwrite
    { outputFile := "o", outputMode := none } true "X" []
  exact ⟨h.1, h.2.1 (by decide)⟩

/-! ## Model acquisition (claims C3, C4) -/

theorem findSome_skip_none {α β : Type} (f : α → Option β) (pre : List α)
    (h : ∀ x ∈ pre, f x = none) (rest : List α) :
    (pre ++ rest).findSome? f = rest.findSome? f := by
  induction pre with
  | nil => rfl
  | cons a l ih =>
    have ha : f a = none := h a (by simp)
    simp only [List.cons_append, List.findSome?]
    rw [ha]
    exact ih (fun x hx => h x (by simp [hx]))

/-- C3 (confirmed).  When the builder state is empty and the first `setModel`
response carries absent (or otherwise falsy, e.g. null) `modelData`, the
`getModel` promise rejects with the descriptive host-empty-model error; in
`generateFromModel` that rejection is caught and logged via `console.log`,
the template callback is never invoked, and the file system is unchanged. -/
theorem getModel_empty_model_spec (env : ModelEnv)
    (codeModelOptions : CodeModelOptions) (genOptions : CodeGenerationOptions)
    (cwd : String) (defaultOutputMode : OutputMode) (openOk : Bool)
    (cbOutput : String) (fs : GenFs)
    (pre post : List SetModelMsg) (m : SetModelMsg)
    (hpre : ∀ x ∈ pre, x.cmd ≠ "setModel")
    (hm : m.cmd = "setModel")
    (hempty : match m.modelData with
      | none => True
      | some d => d.jsTruthy = false) :
    getModel initGenState env codeModelOptions (pre ++ m :: post) =
      (["getModel"], GetModelOutcome.err emptyModelError) ∧
    generateFromModel initGenState env codeModelOptions genOptions
        (pre ++ m :: post) cwd defaultOutputMode openOk cbOutput fs =
      ([GenEvent.sendMessage "getModel", GenEvent.consoleLog emptyModelError], fs) ∧
    GenEvent.callbackInvoked ∉
      (generateFromModel initGenState env codeModelOptions genOptions
        (pre ++ m :: post) cwd defaultOutputMode openOk cbOutput fs).1 := by
  have hhandle : handleSetModel env codeModelOptions m =
      some (Except.error emptyModelError) := by
    unfold handleSetModel
    rw [if_neg (by simp [hm])]
    cases hd : m.modelData with
    | none => rfl
    | some d =>
      rw [hd] at hempty
      simp [hempty]
  have hskip : ∀ x ∈ pre, handleSetModel env codeModelOptions x = none := by
    intro x hx
    unfold handleSetModel
    rw [if_pos (hpre x hx)]
  have hfind : (pre ++ m :: post).findSome? (handleSetModel env codeModelOptions) =
      some (Except.error emptyModelError) := by
    rw [findSome_skip_none _ pre hskip]
    simp only [List.findSome?]
    rw [hhandle]
  have hget : getModel initGenState env codeModelOptions (pre ++ m :: post) =
      (["getModel"], GetModelOutcome.err emptyModelError) := by
    unfold getModel
    rw [if_neg (by simp [initGenState, JsonVal.jsTruthy])]
    rw [hfind]
  refine ⟨hget, ?_, ?_⟩
  · unfold generateFromModel
    rw [hget]
    rfl
  · unfold generateFromModel
    rw [hget]
    simp

/-- Witness for C3: a log message followed by a `setModel` carrying no data. -/
theorem getModel_empty_model_spec_witness :
    getModel initGenState
      { canRead := fun _ => false, readDocument := fun _ => none }
      { modelTransform := none, noParse := none }
      ([{ cmd := "log", modelData := none }] ++
        { cmd := "setModel", modelData := some JsonVal.null } :: []) =
      (["getModel"], GetModelOutcome.err emptyModelError) := by
  have h := getModel_empty_model_spec
    { canRead := fun _ => false, readDocument := fun _ => none }
    { modelTransform := none, noParse := none }
    { outputFile := "o", outputMode := none }
    "C" OutputMode.Overwrite true "X" []
    [{ cmd := "log", modelData := none }] []
    { cmd := "setModel", modelData := some JsonVal.null }
    (by decide) rfl rfl
  exact h.1

/-- C4 (confirmed).  After a `buildModel` call whose builder promise has
resolved with `r`, a subsequent `getModel` sends no message at all (in
particular no `getModel` message) and resolves with the cached builder
result, with the call's optional modelTransform applied exactly as the code
applies it (`if (model && modelTransform)`). -/
theorem getModel_after_buildModel_spec (st0 : GenState) (env : ModelEnv)
    (r : JsonVal) (transform : Option (JsonVal → JsonVal))
    (noParse : Option Bool) (incoming : List SetModelMsg) :
    getModel (builderResolves (buildModelStart st0).1 r).1 env
        { modelTransform := transform, noParse := noParse } incoming =
      ([], GetModelOutcome.ok (applyTransform transform r)) := by
  unfold buildModelStart builderResolves getModel getModelFromModelBuilder
  dsimp only
  by_cases hr : r.jsTruthy <;> simp [hr]

/-! ## Startup-argument parsing (claim C10) -/

theorem foldl_parse_error (jsonParse : String → Except String JsonVal)
    (args : List String) (e : String) :
    ∀ l : List Nat, l.foldl (parseArgsStep jsonParse args) (Except.error e) =
      Except.error e := by
  intro l
  induction l with
  | nil => rfl
  | cons x xs ih => simpa [parseArgsStep] using ih

theorem foldl_parse_hits_error (jsonParse : String → Except String JsonVal)
    (args : List String) (i : Nat) (e : String)
    (hstep : ∀ st : ParsedArgs,
      parseArgsStep jsonParse args (Except.ok st) i = Except.error e) :
    ∀ l : List Nat, i ∈ l → ∀ acc : Except String ParsedArgs,
      ∃ e2, l.foldl (parseArgsStep jsonParse args) acc = Except.error e2 := by
  intro l
  induction l with
  | nil => intro h; cases h
  | cons x xs ih =>
    intro hmem acc
    match acc with
    | Except.error e0 =>
      refine ⟨e0, ?_⟩
      have : parseArgsStep jsonParse args (Except.error e0) x = Except.error e0 := rfl
      simp only [List.foldl_cons, this]
      exact foldl_parse_error jsonParse args e0 xs
    | Except.ok st =>
      by_cases hx : x = i
      · subst hx
        refine ⟨e, ?_⟩
        simp only [List.foldl_cons, hstep st]
        exact foldl_parse_error jsonParse args e xs
      · have hxs : i ∈ xs := by
          rcases List.mem_cons.mp hmem with h1 | h2
          · exact absurd h1.symm hx
          · exact h2
        exact ih hxs (parseArgsStep jsonParse args (Except.ok st) x)

/-- C10 (confirmed).  If the startup argument list contains `--templateArgs`
followed by a non-empty string that `JSON.parse` rejects, the constructor's
argument parsing propagates the exception (there is no try/catch), so
construction fails with an error; whereas an unrecognized `--outputMode`
value is silently ignored, leaving the configured output mode (and the rest
of the configuration) unchanged. -/
theorem parseProcessArgs_throw_spec (jsonParse : String → Except String JsonVal)
    (args : List String) (i : Nat) (s e : String) (st0 : ParsedArgs)
    (hflag : args.get? i = some "--templateArgs")
    (hval : args.get? (i + 1) = some s)
    (hnonempty : s ≠ "")
    (hbad : jsonParse s = Except.error e) :
    (∃ e2, parseProcessArgs jsonParse args st0 = Except.error e2) ∧
    (∀ (bogus : String) (st : ParsedArgs),
      bogus ≠ "append" → bogus ≠ "once" → bogus ≠ "overwrite" →
      ∃ st2, parseProcessArgs jsonParse ["--outputMode", bogus] st =
          Except.ok st2 ∧
        st2.outputMode = st.outputMode) := by

  constructor
  · have hlen : i + 1 < args.length := List.get?_eq_some.mp hval |>.1
    have hslen : s.length > 0 := by
      cases hsz : s.length with
      | zero =>
        exact absurd (by
          cases s with
          | mk data =>
            cases data with
            | nil => rfl
            | cons c cs => simp [String.length] at hsz) hnonempty
      | succ n => omega
    have hnle : ¬ args.length ≤ i + 1 := by omega
    have hflagG : args[i]? = some "--templateArgs" := by
      rw [← List.get?_eq_getElem?]
      exact hflag
    have hvalG : args[i + 1]? = some s := by
      rw [← List.get?_eq_getElem?]
      exact hval
    have hstep : ∀ st : ParsedArgs,
        parseArgsStep jsonParse args (Except.ok st) i = Except.error e := by
      intro st
      unfold parseArgsStep parseTemplateArgs
      simp [hflagG, hvalG, hnle, hbad, hslen, Except.map]
    exact foldl_parse_hits_error jsonParse args i e hstep
      (List.range args.length) (List.mem_range.mpr (by omega)) (Except.ok st0)
  · intro bogus st h1 h2 h3
    have hrange : List.range (["--outputMode", bogus].length) = [0, 1] := rfl
    unfold parseProcessArgs
    rw [hrange]
    simp only [List.foldl_cons, List.foldl_nil]
    have hmode : parseOutputMode ["--outputMode", bogus] 0 = none := by
      unfold parseOutputMode
      rw [if_neg (by simp : ¬ (["--outputMode", bogus].length ≤ 0 + 1))]
      have hget1 : ["--outputMode", bogus].get? (0 + 1) = some bogus := rfl
      rw [hget1]
      split
      · rename_i hca
        exact absurd hca (by simp)
      · rename_i oms hca
        have hb : bogus = oms := by simpa using hca
        subst hb
        split
        · exact absurd rfl h1
        · exact absurd rfl h2
        · exact absurd rfl h3
        · rfl
    have hstep0 : parseArgsStep jsonParse ["--outputMode", bogus] (Except.ok st) 0 =
        Except.ok st := by
      unfold parseArgsStep
      have hget0 : ["--outputMode", bogus].get? 0 = some "--outputMode" := rfl
      rw [hget0]
      dsimp only
      rw [if_neg (by decide : ¬ ("--outputMode" = "--templateArgs"))]
      rw [if_pos (rfl : "--outputMode" = "--outputMode")]
      rw [hmode]
    rw [hstep0]
    unfold parseArgsStep
    have hget1 : ["--outputMode", bogus].get? 1 = some bogus := rfl
    rw [hget1]
    dsimp only
    by_cases hb1 : bogus = "--templateArgs"
    · rw [if_pos hb1]
      unfold parseTemplateArgs
      rw [if_pos (by simp : ["--outputMode", bogus].length ≤ 1 + 1)]
      exact ⟨{ st with templateArgs := none }, rfl, rfl⟩
    · rw [if_neg hb1]
      by_cases hb2 : bogus = "--outputMode"
      · rw [if_pos hb2]
        refine ⟨_, rfl, ?_⟩
        have hmode1 : parseOutputMode ["--outputMode", bogus] 1 = none := by
          unfold parseOutputMode
          rw [if_pos (by simp : ["--outputMode", bogus].length ≤ 1 + 1)]
        rw [hmode1]
      · rw [if_neg hb2]
        exact ⟨st, rfl, rfl⟩

/-- Witness for C10: `--templateArgs not-json` with a failing JSON parser,
and the ignored `--outputMode bogus`. -/
theorem parseProcessArgs_throw_spec_witness :
    (∃ e2, parseProcessArgs (fun _ => Except.error "Unexpected token")
      ["--templateArgs", "not-json"] initParsedArgs = Except.error e2) ∧
    (∃ st2, parseProcessArgs (fun _ => Except.error "Unexpected token")
        ["--outputMode", "bogus"] initParsedArgs = Except.ok st2 ∧
      st2.outputMode = initParsedArgs.outputMode) := by
  have h := parseProcessArgs_throw_spec (fun _ => Except.error "Unexpected token")
    ["--templateArgs", "not-json"] 0 "not-json" "Unexpected token" initParsedArgs
    rfl rfl (by decide) rfl
  exact ⟨h.1, h.2 "bogus" initParsedArgs (by decide) (by decide) (by decide)⟩
